import Mathlib

/-!
Verification of the room/session coordination core of the `letstalk`
voice-call server (`src/server.js`, with prototype variants in
`src/unnamed/`).

The server keeps two JavaScript `Map`s — `rooms` (room id ↦ room record)
and `userNames` (connection id ↦ display name) — and, through socket.io,
a set of broadcast groups (`socket.join` / `socket.leave` membership).
Each inbound socket event (`create-room`, `join-room`, `audio`,
`leave-room`, `disconnect`) mutates this state and emits outbound events
either to the acting socket (`socket.emit`) or to every member of a
broadcast group except the sender (`socket.to(roomId).emit`).

JavaScript `Map`s are modelled as association lists in insertion order
(`mapGet` / `mapSet` / `mapDelete`); broadcast groups as a list of
(room id, connection id) pairs with `socket.join` inserting only when
absent, matching socket.io's set semantics.  Handlers are pure functions
from a state and the event's arguments to the new state paired with the
ordered list of emissions.
-/

abbrev ConnId := String
abbrev RoomId := String

/-- A room record, as stored in the `rooms` map of `server.js`:
`{ users, creator, createdAt }`. -/
structure Room where
  users : List ConnId
  creator : ConnId
  createdAt : String
deriving DecidableEq, Repr

/-- The server's mutable state: the two `Map`s of `server.js` plus the
socket.io broadcast-group membership maintained by `socket.join` /
`socket.leave`. -/
structure ServerState where
  rooms : List (RoomId × Room)
  userNames : List (ConnId × String)
  groups : List (RoomId × ConnId)
deriving DecidableEq, Repr

/-- `Map.prototype.get`: the value stored at `k`, if any. -/
def mapGet {α β : Type} [DecidableEq α] : List (α × β) → α → Option β
  | [], _ => none
  | (k, v) :: rest, k0 => if k = k0 then some v else mapGet rest k0

/-- `Map.prototype.set`: replace in place if the key is present, else
append at the end (JS `Map`s keep insertion order). -/
def mapSet {α β : Type} [DecidableEq α] : List (α × β) → α → β → List (α × β)
  | [], k0, v0 => [(k0, v0)]
  | (k, v) :: rest, k0, v0 =>
    if k = k0 then (k0, v0) :: rest else (k, v) :: mapSet rest k0 v0

/-- `Map.prototype.delete`: remove the entry at the key, if present. -/
def mapDelete {α β : Type} [DecidableEq α] : List (α × β) → α → List (α × β)
  | [], _ => []
  | (k, v) :: rest, k0 => if k = k0 then rest else (k, v) :: mapDelete rest k0

/-- `socket.join(r)` for socket `c`: socket.io rooms are sets, so joining
twice is a no-op. -/
def groupJoin (g : List (RoomId × ConnId)) (r : RoomId) (c : ConnId) :
    List (RoomId × ConnId) :=
  if (r, c) ∈ g then g else g ++ [(r, c)]

/-- `socket.leave(r)` for socket `c`. -/
def groupLeave (g : List (RoomId × ConnId)) (r : RoomId) (c : ConnId) :
    List (RoomId × ConnId) :=
  g.filter (fun p => decide (p ≠ (r, c)))

/-- The sockets currently in broadcast group `r`. -/
def groupMembers (g : List (RoomId × ConnId)) (r : RoomId) : List ConnId :=
  (g.filter (fun p => decide (p.1 = r))).map Prod.snd

/-- Outbound socket events emitted by the handlers of `server.js`.
`Option String` fields are `userNames.get(...)` lookups, which may be
`undefined`. -/
inductive OutEvent where
  | roomCreated (roomId : RoomId) (userName : Option String)
  | roomJoined (roomId : RoomId) (users : List (ConnId × Option String))
      (userName : Option String) (isCreator : Bool)
  | userJoined (userId : ConnId) (userName : Option String)
  | userLeft (userId : ConnId) (userName : Option String)
  | audio (sender : ConnId) (fromName : Option String) (audioData : Nat)
  | errorMessage (message : String)
deriving DecidableEq, Repr

/-- Where an emission goes: `socket.emit` reaches only the acting socket;
`socket.to(r).emit` reaches every socket in group `r` except the sender. -/
inductive Target where
  | selfConn (c : ConnId)
  | toRoom (r : RoomId) (sender : ConnId)
deriving DecidableEq, Repr

abbrev Emission := Target × OutEvent

/-- `userName || 'Anonymous'` of `server.js`: a missing or empty name
falls back to `"Anonymous"`. -/
def resolveName : Option String → String
  | none => "Anonymous"
  | some n => if n = "" then "Anonymous" else n

/-- The `create-room` handler (`server.js` lines 34–51).  The freshly
generated room id and the `createdAt` timestamp are parameters. -/
def handleCreateRoom (s : ServerState) (sid : ConnId) (userName : Option String)
    (newRoomId : RoomId) (ts : String) : ServerState × List Emission :=
  let names := mapSet s.userNames sid (resolveName userName)
  let rooms := mapSet s.rooms newRoomId ⟨[sid], sid, ts⟩
  let groups := groupJoin s.groups newRoomId sid
  (⟨rooms, names, groups⟩,
   [(Target.selfConn sid, OutEvent.roomCreated newRoomId (mapGet names sid))])

/-- The `join-room` handler (`server.js` lines 53–91). -/
def handleJoinRoom (s : ServerState) (sid : ConnId) (roomId : RoomId)
    (userName : Option String) : ServerState × List Emission :=
  match mapGet s.rooms roomId with
  | none => (s, [(Target.selfConn sid, OutEvent.errorMessage "Room not found")])
  | some room =>
    if 10 ≤ room.users.length then
      (s, [(Target.selfConn sid, OutEvent.errorMessage "Room is full")])
    else
      let names := mapSet s.userNames sid (resolveName userName)
      let users := room.users ++ [sid]
      let rooms := mapSet s.rooms roomId { room with users := users }
      let groups := groupJoin s.groups roomId sid
      let usersInRoom := users.map (fun u => (u, mapGet names u))
      (⟨rooms, names, groups⟩,
       [(Target.selfConn sid,
         OutEvent.roomJoined roomId usersInRoom (mapGet names sid)
           (decide (room.creator = sid))),
        (Target.toRoom roomId sid,
         OutEvent.userJoined sid (mapGet names sid))])

/-- The `audio` handler (`server.js` lines 93–101): a pure relay. -/
def handleAudio (s : ServerState) (sid : ConnId) (roomId : RoomId)
    (audioData : Nat) : ServerState × List Emission :=
  (s, [(Target.toRoom roomId sid,
        OutEvent.audio sid (mapGet s.userNames sid) audioData)])

/-- The `leave-room` handler (`server.js` lines 103–120). -/
def handleLeaveRoom (s : ServerState) (sid : ConnId) (roomId : RoomId) :
    ServerState × List Emission :=
  let groups := groupLeave s.groups roomId sid
  match mapGet s.rooms roomId with
  | none => (⟨s.rooms, mapDelete s.userNames sid, groups⟩, [])
  | some room =>
    let users := room.users.filter (fun id => decide (id ≠ sid))
    let rooms :=
      if users.length = 0 then mapDelete s.rooms roomId
      else mapSet s.rooms roomId { room with users := users }
    (⟨rooms, mapDelete s.userNames sid, groups⟩,
     [(Target.toRoom roomId sid,
       OutEvent.userLeft sid (mapGet s.userNames sid))])

/-- The room-table sweep of the `disconnect` handler (`server.js` lines
126–138): visit every room in insertion order; wherever the socket is a
member, filter it out, emit `user-left` to the room, and drop the room if
it became empty. -/
def disconnectRooms (sid : ConnId) (uname : Option String) :
    List (RoomId × Room) → List (RoomId × Room) × List Emission
  | [] => ([], [])
  | (rid, room) :: rest =>
    let next := disconnectRooms sid uname rest
    if sid ∈ room.users then
      let users := room.users.filter (fun id => decide (id ≠ sid))
      let em : Emission := (Target.toRoom rid sid, OutEvent.userLeft sid uname)
      (if users.length = 0 then next.1 else (rid, { room with users := users }) :: next.1,
       em :: next.2)
    else ((rid, room) :: next.1, next.2)

/-- The `disconnect` handler (`server.js` lines 122–141).  The transport
also removes the closing socket from every broadcast group. -/
def handleDisconnect (s : ServerState) (sid : ConnId) :
    ServerState × List Emission :=
  let uname := mapGet s.userNames sid
  let swept := disconnectRooms sid uname s.rooms
  (⟨swept.1, mapDelete s.userNames sid,
    s.groups.filter (fun p => decide (p.2 ≠ sid))⟩, swept.2)

/-- Inbound events, carrying the data the transport layer supplies
(socket id, parsed payload, and for `create-room` the generated id and
timestamp). -/
inductive InEvent where
  | createRoom (sid : ConnId) (userName : Option String) (newRoomId : RoomId) (ts : String)
  | joinRoom (sid : ConnId) (roomId : RoomId) (userName : Option String)
  | audio (sid : ConnId) (roomId : RoomId) (audioData : Nat)
  | leaveRoom (sid : ConnId) (roomId : RoomId)
  | disconnect (sid : ConnId)
deriving DecidableEq, Repr

/-- One step of the connection-event state machine. -/
def step (s : ServerState) : InEvent → ServerState × List Emission
  | InEvent.createRoom sid userName newRoomId ts => handleCreateRoom s sid userName newRoomId ts
  | InEvent.joinRoom sid roomId userName => handleJoinRoom s sid roomId userName
  | InEvent.audio sid roomId audioData => handleAudio s sid roomId audioData
  | InEvent.leaveRoom sid roomId => handleLeaveRoom s sid roomId
  | InEvent.disconnect sid => handleDisconnect s sid

/-- The state at process start: both maps and all groups empty. -/
def initState : ServerState := ⟨[], [], []⟩

/-- The state reached after a sequence of inbound events. -/
def runState (evs : List InEvent) : ServerState :=
  evs.foldl (fun s e => (step s e).1) initState

/-- The connections a single emission is delivered to: `socket.emit`
reaches the acting socket; `socket.to(r).emit` reaches the members of
group `r` other than the sender. -/
def receivers (s : ServerState) : Target → List ConnId
  | Target.selfConn c => [c]
  | Target.toRoom r sender =>
    (groupMembers s.groups r).filter (fun x => decide (x ≠ sender))

/-- The events a given connection receives from a list of emissions,
delivered against the group membership of state `s`. -/
def deliveredTo (s : ServerState) (ems : List Emission) (c : ConnId) :
    List OutEvent :=
  (ems.filter (fun e => decide (c ∈ receivers s e.1))).map Prod.snd

/-- The `join-room` handler of the walkie-talkie prototype variant
(`src/unnamed/part_000`, second server block, lines 290–325).  There the
display name is generated at connection time and captured by the handler's
closure, and the `user-joined` broadcast to the other members is emitted
BEFORE the requester's own `room-joined`. -/
def joinRoomVariant (s : ServerState) (sid : ConnId) (roomId : RoomId)
    (userName : String) : ServerState × List Emission :=
  match mapGet s.rooms roomId with
  | none => (s, [(Target.selfConn sid, OutEvent.errorMessage "Room not found")])
  | some room =>
    if 10 ≤ room.users.length then
      (s, [(Target.selfConn sid, OutEvent.errorMessage "Room is full")])
    else
      let users := room.users ++ [sid]
      let rooms := mapSet s.rooms roomId { room with users := users }
      let groups := groupJoin s.groups roomId sid
      let usersInRoom := users.map (fun u => (u, mapGet s.userNames u))
      (⟨rooms, s.userNames, groups⟩,
       [(Target.toRoom roomId sid, OutEvent.userJoined sid (some userName)),
        (Target.selfConn sid,
         OutEvent.roomJoined roomId usersInRoom (some userName)
           (decide (room.creator = sid)))])

/-- The digit characters of JS `Number.prototype.toString(36)`:
`0123456789abcdefghijklmnopqrstuvwxyz`. -/
def base36Char (d : Fin 36) : Char :=
  if d.val < 10 then Char.ofNat (48 + d.val) else Char.ofNat (87 + d.val)

/-- `x.toString(36)` for a double `x` in `[0, 1)`, represented by the
base-36 digits of its fractional expansion as JS prints it (shortest
form, so the digit list has no trailing zeros and is empty exactly for
`x = 0`): the string is `"0"` for zero, else `"0."` followed by the
digits.  `0.5` is the digit list `[18]` and prints as `"0.i"`. -/
def jsToString36 (digits : List (Fin 36)) : List Char :=
  if digits = [] then ['0'] else '0' :: '.' :: digits.map base36Char

/-- `String.prototype.substring(2, 8)`: the characters at indices 2–7,
clamped to the string's length. -/
def jsSubstring2to8 (cs : List Char) : List Char := (cs.drop 2).take 6

/-- `String.prototype.toUpperCase` on an ASCII character. -/
def jsToUpper (c : Char) : Char :=
  if 97 ≤ c.toNat ∧ c.toNat ≤ 122 then Char.ofNat (c.toNat - 32) else c

/-- `generateRoomId` (`server.js` lines 144–146):
`Math.random().toString(36).substring(2, 8).toUpperCase()`, as a
function of the random double's printed base-36 fractional digits. -/
def generateRoomId (digits : List (Fin 36)) : List Char :=
  (jsSubstring2to8 (jsToString36 digits)).map jsToUpper

/-! ### Association-list (`Map`) lemmas -/

theorem mapGet_mem {α β : Type} [DecidableEq α] {m : List (α × β)} {k : α} {v : β}
    (h : mapGet m k = some v) : (k, v) ∈ m := by
  induction m with
  | nil => simp [mapGet] at h
  | cons p rest ih =>
    obtain ⟨k1, v1⟩ := p
    by_cases hk : k1 = k
    · subst hk
      simp [mapGet] at h
      simp [h]
    · simp [mapGet, hk] at h
      exact List.mem_cons_of_mem _ (ih h)

theorem mem_mapSet {α β : Type} [DecidableEq α] {m : List (α × β)} {k : α} {v : β}
    {p : α × β} (h : p ∈ mapSet m k v) : p = (k, v) ∨ p ∈ m := by
  induction m with
  | nil => simpa [mapSet] using h
  | cons q rest ih =>
    obtain ⟨k1, v1⟩ := q
    by_cases hk : k1 = k
    · simp [mapSet, hk] at h
      rcases h with h | h
      · exact Or.inl h
      · exact Or.inr (List.mem_cons_of_mem _ h)
    · simp [mapSet, hk] at h
      rcases h with h | h
      · exact Or.inr (by simp [h])
      · rcases ih h with h1 | h1
        · exact Or.inl h1
        · exact Or.inr (List.mem_cons_of_mem _ h1)

theorem mapGet_mapSet_self {α β : Type} [DecidableEq α] (m : List (α × β)) (k : α) (v : β) :
    mapGet (mapSet m k v) k = some v := by
  induction m with
  | nil => simp [mapSet, mapGet]
  | cons q rest ih =>
    obtain ⟨k1, v1⟩ := q
    by_cases hk : k1 = k
    · simp [mapSet, hk, mapGet]
    · simp [mapSet, hk, mapGet, ih]

theorem mapGet_mapSet_ne {α β : Type} [DecidableEq α] (m : List (α × β)) {k k2 : α} (v : β)
    (h : k ≠ k2) : mapGet (mapSet m k v) k2 = mapGet m k2 := by
  induction m with
  | nil => simp [mapSet, mapGet, h]
  | cons q rest ih =>
    obtain ⟨k1, v1⟩ := q
    by_cases hk : k1 = k
    · subst hk
      simp [mapSet, mapGet, h]
    · simp [mapSet, hk, mapGet, ih]

theorem mem_mapDelete {α β : Type} [DecidableEq α] {m : List (α × β)} {k : α}
    {p : α × β} (h : p ∈ mapDelete m k) : p ∈ m := by
  induction m with
  | nil => simpa [mapDelete] using h
  | cons q rest ih =>
    obtain ⟨k1, v1⟩ := q
    by_cases hk : k1 = k
    · simp [mapDelete, hk] at h
      exact List.mem_cons_of_mem _ h
    · simp [mapDelete, hk] at h
      rcases h with h | h
      · simp [h]
      · exact List.mem_cons_of_mem _ (ih h)

theorem mapGet_mapDelete_ne {α β : Type} [DecidableEq α] (m : List (α × β)) {k k2 : α}
    (h : k ≠ k2) : mapGet (mapDelete m k) k2 = mapGet m k2 := by
  induction m with
  | nil => simp [mapDelete]
  | cons q rest ih =>
    obtain ⟨k1, v1⟩ := q
    by_cases hk : k1 = k
    · subst hk
      simp [mapDelete, mapGet, h]
    · simp [mapDelete, hk, mapGet, ih]

theorem mapGet_eq_none_iff {α β : Type} [DecidableEq α] {m : List (α × β)} {k : α} :
    mapGet m k = none ↔ k ∉ m.map Prod.fst := by
  induction m with
  | nil => simp [mapGet]
  | cons q rest ih =>
    obtain ⟨k1, v1⟩ := q
    by_cases hk : k1 = k
    · subst hk
      simp [mapGet]
    · simp [mapGet, hk, ih, Ne.symm hk]

theorem keys_mapSet {α β : Type} [DecidableEq α] (m : List (α × β)) (k : α) (v : β) :
    (mapSet m k v).map Prod.fst = if k ∈ m.map Prod.fst then m.map Prod.fst
      else m.map Prod.fst ++ [k] := by
  induction m with
  | nil => simp [mapSet]
  | cons q rest ih =>
    obtain ⟨k1, v1⟩ := q
    by_cases hk : k1 = k
    · subst hk
      simp [mapSet]
    · have hkk : k ≠ k1 := fun hc => hk hc.symm
      simp only [mapSet, if_neg hk, List.map_cons, ih, List.mem_cons]
      by_cases hmem : k ∈ List.map Prod.fst rest
      · simp [hmem]
      · simp [hmem, hkk]

theorem keys_mapSet_nodup {α β : Type} [DecidableEq α] {m : List (α × β)} (k : α) (v : β)
    (h : (m.map Prod.fst).Nodup) : ((mapSet m k v).map Prod.fst).Nodup := by
  rw [keys_mapSet]
  by_cases hk : k ∈ m.map Prod.fst
  · rw [if_pos hk]
    exact h
  · rw [if_neg hk]
    refine List.Nodup.append h (List.nodup_singleton k) ?_
    intro a ha hb
    simp only [List.mem_singleton] at hb
    exact hk (hb ▸ ha)

theorem keys_mapDelete_sublist {α β : Type} [DecidableEq α] (m : List (α × β)) (k : α) :
    ((mapDelete m k).map Prod.fst).Sublist (m.map Prod.fst) := by
  induction m with
  | nil => simp [mapDelete]
  | cons q rest ih =>
    obtain ⟨k1, v1⟩ := q
    by_cases hk : k1 = k
    · simp only [mapDelete, if_pos hk]
      exact List.sublist_cons_of_sublist _ (List.Sublist.refl _)
    · simp only [mapDelete, if_neg hk, List.map_cons]
      exact List.Sublist.cons₂ _ ih

theorem mem_mapSet_nodup {α β : Type} [DecidableEq α] {m : List (α × β)} {k : α} {v : β}
    {p : α × β} (hN : (m.map Prod.fst).Nodup) (h : p ∈ mapSet m k v) :
    p = (k, v) ∨ (p ∈ m ∧ p.1 ≠ k) := by
  induction m with
  | nil => simpa [mapSet] using h
  | cons q rest ih =>
    obtain ⟨k1, v1⟩ := q
    simp only [List.map_cons, List.nodup_cons] at hN
    by_cases hk : k1 = k
    · subst hk
      simp [mapSet] at h
      rcases h with h | h
      · exact Or.inl h
      · refine Or.inr ⟨List.mem_cons_of_mem _ h, ?_⟩
        intro hc
        exact hN.1 (hc ▸ List.mem_map_of_mem Prod.fst h)
    · simp [mapSet, hk] at h
      rcases h with h | h
      · refine Or.inr ⟨by simp [h], by simp [h, hk]⟩
      · rcases ih hN.2 h with h1 | h1
        · exact Or.inl h1
        · exact Or.inr ⟨List.mem_cons_of_mem _ h1.1, h1.2⟩

theorem mem_mapDelete_nodup {α β : Type} [DecidableEq α] {m : List (α × β)} {k : α}
    {p : α × β} (hN : (m.map Prod.fst).Nodup) (h : p ∈ mapDelete m k) :
    p ∈ m ∧ p.1 ≠ k := by
  induction m with
  | nil => simpa [mapDelete] using h
  | cons q rest ih =>
    obtain ⟨k1, v1⟩ := q
    simp only [List.map_cons, List.nodup_cons] at hN
    by_cases hk : k1 = k
    · subst hk
      simp [mapDelete] at h
      refine ⟨List.mem_cons_of_mem _ h, ?_⟩
      intro hc
      exact hN.1 (hc ▸ List.mem_map_of_mem Prod.fst h)
    · simp [mapDelete, hk] at h
      rcases h with h | h
      · exact ⟨by simp [h], by simp [h, hk]⟩
      · exact ⟨List.mem_cons_of_mem _ (ih hN.2 h).1, (ih hN.2 h).2⟩

theorem mapGet_mapDelete_self {α β : Type} [DecidableEq α] {m : List (α × β)} {k : α}
    (hN : (m.map Prod.fst).Nodup) : mapGet (mapDelete m k) k = none := by
  rw [mapGet_eq_none_iff]
  intro hmem
  simp only [List.mem_map] at hmem
  obtain ⟨p, hp, hpk⟩ := hmem
  exact (mem_mapDelete_nodup hN hp).2 hpk

theorem mapGet_none_mapDelete {α β : Type} [DecidableEq α] {m : List (α × β)} {k : α}
    (h : mapGet m k = none) : mapDelete m k = m := by
  induction m with
  | nil => simp [mapDelete]
  | cons q rest ih =>
    obtain ⟨k1, v1⟩ := q
    by_cases hk : k1 = k
    · simp [mapGet, hk] at h
    · simp [mapGet, hk] at h
      simp [mapDelete, hk, ih h]

/-! ### Broadcast-group lemmas -/

theorem mem_groupJoin_self (g : List (RoomId × ConnId)) (r : RoomId) (c : ConnId) :
    (r, c) ∈ groupJoin g r c := by
  unfold groupJoin
  by_cases h : (r, c) ∈ g
  · simpa [h]
  · simp [h]

theorem mem_groupJoin_of_mem {g : List (RoomId × ConnId)} {q : RoomId × ConnId}
    (r : RoomId) (c : ConnId) (h : q ∈ g) : q ∈ groupJoin g r c := by
  unfold groupJoin
  by_cases hm : (r, c) ∈ g
  · simpa [hm]
  · simp [hm, h]

theorem mem_groupLeave {g : List (RoomId × ConnId)} {q : RoomId × ConnId}
    {r : RoomId} {c : ConnId} (h : q ∈ g) (hne : q ≠ (r, c)) :
    q ∈ groupLeave g r c := by
  unfold groupLeave
  simp [List.mem_filter, h, hne]

theorem mem_groupMembers {g : List (RoomId × ConnId)} {r : RoomId} {c : ConnId}
    (h : (r, c) ∈ g) : c ∈ groupMembers g r := by
  unfold groupMembers
  refine List.mem_map.2 ⟨(r, c), ?_, rfl⟩
  simp [List.mem_filter, h]

/-! ### Lemmas about the disconnect sweep -/

theorem disconnectRooms_keys_sublist (sid : ConnId) (uname : Option String)
    (l : List (RoomId × Room)) :
    ((disconnectRooms sid uname l).1.map Prod.fst).Sublist (l.map Prod.fst) := by
  induction l with
  | nil => simp [disconnectRooms]
  | cons p rest ih =>
    obtain ⟨rid, room⟩ := p
    by_cases hmem : sid ∈ room.users
    · simp only [disconnectRooms, if_pos hmem]
      by_cases hlen : (room.users.filter (fun id => decide (id ≠ sid))).length = 0
      · simp only [if_pos hlen]
        exact List.sublist_cons_of_sublist _ ih
      · simp only [if_neg hlen, List.map_cons]
        exact List.Sublist.cons₂ _ ih
    · simp only [disconnectRooms, if_neg hmem, List.map_cons]
      exact List.Sublist.cons₂ _ ih

theorem disconnectRooms_mem {sid : ConnId} {uname : Option String}
    {l : List (RoomId × Room)} {p : RoomId × Room}
    (h : p ∈ (disconnectRooms sid uname l).1) :
    ∃ q ∈ l, p.1 = q.1 ∧ p.2.users.length ≤ q.2.users.length ∧
      (∀ c ∈ p.2.users, c ∈ q.2.users ∧ c ≠ sid) ∧
      (p.2.users = q.2.users ∨ p.2.users ≠ []) := by
  induction l with
  | nil => simp [disconnectRooms] at h
  | cons q0 rest ih =>
    obtain ⟨rid, room⟩ := q0
    by_cases hmem : sid ∈ room.users
    · simp only [disconnectRooms, if_pos hmem] at h
      by_cases hlen : (room.users.filter (fun id => decide (id ≠ sid))).length = 0
      · rw [if_pos hlen] at h
        obtain ⟨q, hq, hrest⟩ := ih h
        exact ⟨q, List.mem_cons_of_mem _ hq, hrest⟩
      · rw [if_neg hlen] at h
        rcases List.mem_cons.1 h with h1 | h1
        · refine ⟨(rid, room), List.mem_cons_self _ _, by simp [h1], ?_, ?_, ?_⟩
          · simp only [h1]
            exact List.length_filter_le _ _
          · intro c hc
            simp only [h1] at hc
            have := List.mem_filter.1 hc
            exact ⟨this.1, by simpa using this.2⟩
          · refine Or.inr ?_
            simp only [h1]
            intro hnil
            exact hlen (by rw [hnil]; rfl)
        · obtain ⟨q, hq, hrest⟩ := ih h1
          exact ⟨q, List.mem_cons_of_mem _ hq, hrest⟩
    · simp only [disconnectRooms, if_neg hmem] at h
      rcases List.mem_cons.1 h with h1 | h1
      · subst h1
        refine ⟨(rid, room), List.mem_cons_self _ _, rfl, le_refl _, ?_, Or.inl rfl⟩
        intro c hc
        exact ⟨hc, fun hcs => hmem (hcs ▸ hc)⟩
      · obtain ⟨q, hq, hrest⟩ := ih h1
        exact ⟨q, List.mem_cons_of_mem _ hq, hrest⟩

theorem disconnectRooms_no_sid {sid : ConnId} {uname : Option String}
    {l : List (RoomId × Room)} (h : ∀ p ∈ l, sid ∉ p.2.users) :
    disconnectRooms sid uname l = (l, []) := by
  induction l with
  | nil => simp [disconnectRooms]
  | cons q rest ih =>
    obtain ⟨rid, room⟩ := q
    have hq : sid ∉ room.users := h (rid, room) (List.mem_cons_self _ _)
    have hr : ∀ p ∈ rest, sid ∉ p.2.users := fun p hp => h p (List.mem_cons_of_mem _ hp)
    simp [disconnectRooms, hq, ih hr]

theorem disconnectRooms_result_no_sid (sid : ConnId) (uname : Option String)
    (l : List (RoomId × Room)) :
    ∀ p ∈ (disconnectRooms sid uname l).1, sid ∉ p.2.users := by
  intro p hp hmem
  obtain ⟨q, _, _, _, hc, _⟩ := disconnectRooms_mem hp
  exact (hc sid hmem).2 rfl

theorem mapGet_none_of_keys_sublist {α β : Type} [DecidableEq α]
    {m1 m2 : List (α × β)} {k : α}
    (hs : (m1.map Prod.fst).Sublist (m2.map Prod.fst)) (h : mapGet m2 k = none) :
    mapGet m1 k = none := by
  rw [mapGet_eq_none_iff] at h ⊢
  exact fun hm => h (hs.subset hm)

theorem disconnectRooms_get_none {sid : ConnId} {uname : Option String}
    {l : List (RoomId × Room)} {rid : RoomId} {room : Room}
    (hN : (l.map Prod.fst).Nodup) (h : mapGet l rid = some room)
    (hall : ∀ c ∈ room.users, c = sid) (hne : room.users ≠ []) :
    mapGet (disconnectRooms sid uname l).1 rid = none := by
  induction l with
  | nil => simp [mapGet] at h
  | cons q rest ih =>
    obtain ⟨k1, r1⟩ := q
    simp only [List.map_cons, List.nodup_cons] at hN
    by_cases hk : k1 = rid
    · subst hk
      have hroom : r1 = room := by
        simp only [mapGet, if_pos rfl] at h
        exact Option.some.inj h
      subst hroom
      have hsid : sid ∈ r1.users := by
        obtain ⟨u, hu⟩ := List.exists_mem_of_ne_nil _ hne
        exact (hall u hu) ▸ hu
      have hfil : r1.users.filter (fun id => decide (id ≠ sid)) = [] := by
        rw [List.filter_eq_nil_iff]
        intro a ha
        simp [hall a ha]
      simp only [disconnectRooms, if_pos hsid, hfil, List.length_nil, if_pos rfl]
      have hnone : mapGet rest k1 = none := mapGet_eq_none_iff.2 hN.1
      exact mapGet_none_of_keys_sublist (disconnectRooms_keys_sublist sid uname rest) hnone
    · have hrest : mapGet rest rid = some room := by
        simpa [mapGet, hk] using h
      have ihr := ih hN.2 hrest
      by_cases hmem : sid ∈ r1.users
      · simp only [disconnectRooms, if_pos hmem]
        split
        · exact ihr
        · simp only [mapGet, if_neg hk]
          exact ihr
      · simp only [disconnectRooms, if_neg hmem, mapGet, if_neg hk]
        exact ihr

/-! ### The reachability invariant of the room store

Every live room has between 1 and 10 members, every member of a room is
in that room's broadcast group, and the room table has no duplicate
keys (a JS `Map` cannot have any). -/

def Invariant (s : ServerState) : Prop :=
  (∀ p ∈ s.rooms, p.2.users.length ≤ 10) ∧
  (∀ p ∈ s.rooms, p.2.users ≠ []) ∧
  (∀ p ∈ s.rooms, ∀ c ∈ p.2.users, (p.1, c) ∈ s.groups) ∧
  (s.rooms.map Prod.fst).Nodup

theorem invariant_handleCreateRoom {s : ServerState} (hI : Invariant s)
    (sid : ConnId) (userName : Option String) (newRoomId : RoomId) (ts : String) :
    Invariant (handleCreateRoom s sid userName newRoomId ts).1 := by
  obtain ⟨h1, h2, h3, h4⟩ := hI
  refine ⟨?_, ?_, ?_, ?_⟩
  · intro p hp
    rcases mem_mapSet hp with h | h
    · simp [h]
    · exact h1 p h
  · intro p hp
    rcases mem_mapSet hp with h | h
    · simp [h]
    · exact h2 p h
  · intro p hp c hc
    rcases mem_mapSet hp with h | h
    · subst h
      simp only at hc
      have : c = sid := by simpa using hc
      subst this
      exact mem_groupJoin_self s.groups newRoomId c
    · exact mem_groupJoin_of_mem _ _ (h3 p h c hc)
  · exact keys_mapSet_nodup _ _ h4

theorem invariant_handleJoinRoom {s : ServerState} (hI : Invariant s)
    (sid : ConnId) (roomId : RoomId) (userName : Option String) :
    Invariant (handleJoinRoom s sid roomId userName).1 := by
  obtain ⟨h1, h2, h3, h4⟩ := hI
  unfold handleJoinRoom
  cases hget : mapGet s.rooms roomId with
  | none => exact ⟨h1, h2, h3, h4⟩
  | some room =>
    by_cases hfull : 10 ≤ room.users.length
    · simp only [if_pos hfull]
      exact ⟨h1, h2, h3, h4⟩
    · simp only [if_neg hfull]
      have hroommem : (roomId, room) ∈ s.rooms := mapGet_mem hget
      refine ⟨?_, ?_, ?_, ?_⟩
      · intro p hp
        rcases mem_mapSet hp with h | h
        · have hlt : room.users.length < 10 := Nat.lt_of_not_le hfull
          simp [h]
          omega
        · exact h1 p h
      · intro p hp
        rcases mem_mapSet hp with h | h
        · simp [h]
        · exact h2 p h
      · intro p hp c hc
        rcases mem_mapSet hp with h | h
        · subst h
          simp only [List.mem_append, List.mem_singleton] at hc
          rcases hc with hc | hc
          · exact mem_groupJoin_of_mem _ _ (h3 (roomId, room) hroommem c hc)
          · subst hc
            exact mem_groupJoin_self s.groups roomId c
        · exact mem_groupJoin_of_mem _ _ (h3 p h c hc)
      · exact keys_mapSet_nodup _ _ h4

theorem invariant_handleAudio {s : ServerState} (hI : Invariant s)
    (sid : ConnId) (roomId : RoomId) (audioData : Nat) :
    Invariant (handleAudio s sid roomId audioData).1 := hI

theorem invariant_handleLeaveRoom {s : ServerState} (hI : Invariant s)
    (sid : ConnId) (roomId : RoomId) :
    Invariant (handleLeaveRoom s sid roomId).1 := by
  obtain ⟨h1, h2, h3, h4⟩ := hI
  unfold handleLeaveRoom
  cases hget : mapGet s.rooms roomId with
  | none =>
    refine ⟨h1, h2, ?_, h4⟩
    intro p hp c hc
    refine mem_groupLeave (h3 p hp c hc) ?_
    intro hcon
    have : mapGet s.rooms roomId = none := hget
    rw [mapGet_eq_none_iff] at this
    apply this
    have : p.1 = roomId := congrArg Prod.fst hcon
    exact this ▸ List.mem_map_of_mem Prod.fst hp
  | some room =>
    have hroommem : (roomId, room) ∈ s.rooms := mapGet_mem hget
    by_cases hlen : (room.users.filter (fun id => decide (id ≠ sid))).length = 0
    · simp only [if_pos hlen]
      refine ⟨?_, ?_, ?_, ?_⟩
      · intro p hp
        exact h1 p (mem_mapDelete hp)
      · intro p hp
        exact h2 p (mem_mapDelete hp)
      · intro p hp c hc
        obtain ⟨hpm, hpne⟩ := mem_mapDelete_nodup h4 hp
        refine mem_groupLeave (h3 p hpm c hc) ?_
        intro hcon
        exact hpne (congrArg Prod.fst hcon)
      · exact (keys_mapDelete_sublist s.rooms roomId).nodup h4
    · simp only [if_neg hlen]
      refine ⟨?_, ?_, ?_, ?_⟩
      · intro p hp
        rcases mem_mapSet hp with h | h
        · simp only [h]
          exact le_trans (List.length_filter_le _ _) (h1 (roomId, room) hroommem)
        · exact h1 p h
      · intro p hp
        rcases mem_mapSet hp with h | h
        · simp only [h]
          intro hnil
          exact hlen (by rw [hnil]; rfl)
        · exact h2 p h
      · intro p hp c hc
        rcases mem_mapSet_nodup h4 hp with h | ⟨hpm, hpne⟩
        · subst h
          simp only [List.mem_filter] at hc
          obtain ⟨hcm, hcs⟩ := hc
          refine mem_groupLeave (h3 (roomId, room) hroommem c hcm) ?_
          intro hcon
          have : c = sid := congrArg Prod.snd hcon
          simp [this] at hcs
        · refine mem_groupLeave (h3 p hpm c hc) ?_
          intro hcon
          exact hpne (congrArg Prod.fst hcon)
      · exact keys_mapSet_nodup _ _ h4

theorem invariant_handleDisconnect {s : ServerState} (hI : Invariant s)
    (sid : ConnId) : Invariant (handleDisconnect s sid).1 := by
  obtain ⟨h1, h2, h3, h4⟩ := hI
  refine ⟨?_, ?_, ?_, ?_⟩
  · intro p hp
    obtain ⟨q, hq, _, hlen, _, _⟩ := disconnectRooms_mem hp
    exact le_trans hlen (h1 q hq)
  · intro p hp
    obtain ⟨q, hq, _, _, _, hor⟩ := disconnectRooms_mem hp
    rcases hor with h | h
    · rw [h]
      exact h2 q hq
    · exact h
  · intro p hp c hc
    obtain ⟨q, hq, hq1, _, hcall, _⟩ := disconnectRooms_mem hp
    obtain ⟨hcq, hcs⟩ := hcall c hc
    have : (q.1, c) ∈ s.groups := h3 q hq c hcq
    simp only [handleDisconnect, List.mem_filter]
    exact ⟨hq1 ▸ this, by simpa using hcs⟩
  · exact (disconnectRooms_keys_sublist sid _ s.rooms).nodup h4

theorem invariant_step {s : ServerState} (hI : Invariant s) (e : InEvent) :
    Invariant (step s e).1 := by
  cases e with
  | createRoom sid userName newRoomId ts => exact invariant_handleCreateRoom hI sid userName newRoomId ts
  | joinRoom sid roomId userName => exact invariant_handleJoinRoom hI sid roomId userName
  | audio sid roomId audioData => exact invariant_handleAudio hI sid roomId audioData
  | leaveRoom sid roomId => exact invariant_handleLeaveRoom hI sid roomId
  | disconnect sid => exact invariant_handleDisconnect hI sid

theorem invariant_foldl (evs : List InEvent) :
    ∀ s : ServerState, Invariant s →
      Invariant (evs.foldl (fun s e => (step s e).1) s) := by
  induction evs with
  | nil => intro s hs; exact hs
  | cons e rest ih =>
    intro s hs
    exact ih _ (invariant_step hs e)

theorem invariant_runState (evs : List InEvent) : Invariant (runState evs) := by
  unfold runState
  apply invariant_foldl
  exact ⟨by simp [initState], by simp [initState], by simp [initState], by simp [initState]⟩

/-! ### Claim theorems -/

/-- C1: in every state reachable by any sequence of events the member
list of every live room has length at most 10, and a `join-room`
targeting a room already at capacity emits exactly the `Room is full`
error to the requester and leaves the whole state (so in particular that
room's member list) unchanged. -/
theorem claim_C1_capacity_invariant :
    (∀ (evs : List InEvent) (rid : RoomId) (room : Room),
      mapGet (runState evs).rooms rid = some room → room.users.length ≤ 10) ∧
    (∀ (s : ServerState) (sid : ConnId) (rid : RoomId) (userName : Option String)
      (room : Room), mapGet s.rooms rid = some room → 10 ≤ room.users.length →
      handleJoinRoom s sid rid userName =
        (s, [(Target.selfConn sid, OutEvent.errorMessage "Room is full")])) := by
  constructor
  · intro evs rid room hget
    exact (invariant_runState evs).1 (rid, room) (mapGet_mem hget)
  · intro s sid rid userName room hget hfull
    unfold handleJoinRoom
    simp only [hget, if_pos hfull]

theorem claim_C1_capacity_invariant_witness :
    (Room.mk ["a"] "a" "t0").users.length ≤ 10 ∧
    handleJoinRoom
        ⟨[("R", ⟨["u0", "u1", "u2", "u3", "u4", "u5", "u6", "u7", "u8", "u9"], "u0", "t0"⟩)],
          [], []⟩ "k" "R" (some "kim") =
      (⟨[("R", ⟨["u0", "u1", "u2", "u3", "u4", "u5", "u6", "u7", "u8", "u9"], "u0", "t0"⟩)],
          [], []⟩,
       [(Target.selfConn "k", OutEvent.errorMessage "Room is full")]) := by
  constructor
  · exact claim_C1_capacity_invariant.1 [InEvent.createRoom "a" (some "alice") "R" "t0"]
      "R" ⟨["a"], "a", "t0"⟩ (by decide)
  · exact claim_C1_capacity_invariant.2 _ "k" "R" (some "kim")
      ⟨["u0", "u1", "u2", "u3", "u4", "u5", "u6", "u7", "u8", "u9"], "u0", "t0"⟩
      (by decide) (by decide)

/-- C2: no reachable state has a room with an empty member list; a
`leave-room` or `disconnect` that removes the last member deletes the
room from the store in the same event, and a `join-room` for an id that
is not in the store yields only the `Room not found` error with no state
change. -/
theorem claim_C2_no_empty_room :
    (∀ (evs : List InEvent) (rid : RoomId) (room : Room),
      mapGet (runState evs).rooms rid = some room → room.users ≠ []) ∧
    (∀ (evs : List InEvent) (sid : ConnId) (rid : RoomId) (room : Room),
      mapGet (runState evs).rooms rid = some room →
      room.users.filter (fun id => decide (id ≠ sid)) = [] →
      mapGet (handleLeaveRoom (runState evs) sid rid).1.rooms rid = none ∧
      mapGet (handleDisconnect (runState evs) sid).1.rooms rid = none) ∧
    (∀ (s : ServerState) (sid : ConnId) (rid : RoomId) (userName : Option String),
      mapGet s.rooms rid = none →
      handleJoinRoom s sid rid userName =
        (s, [(Target.selfConn sid, OutEvent.errorMessage "Room not found")])) := by
  refine ⟨?_, ?_, ?_⟩
  · intro evs rid room hget
    exact (invariant_runState evs).2.1 (rid, room) (mapGet_mem hget)
  · intro evs sid rid room hget hfil
    have hI := invariant_runState evs
    have hne : room.users ≠ [] := hI.2.1 (rid, room) (mapGet_mem hget)
    have hall : ∀ c ∈ room.users, c = sid := by
      intro c hc
      by_contra hcc
      have : c ∈ room.users.filter (fun id => decide (id ≠ sid)) :=
        List.mem_filter.2 ⟨hc, by simpa using hcc⟩
      rw [hfil] at this
      simp at this
    constructor
    · have hlen : (room.users.filter (fun id => decide (id ≠ sid))).length = 0 := by
        rw [hfil]; rfl
      unfold handleLeaveRoom
      simp only [hget, if_pos hlen]
      exact mapGet_mapDelete_self hI.2.2.2
    · unfold handleDisconnect
      exact disconnectRooms_get_none hI.2.2.2 hget hall hne
  · intro s sid rid userName hget
    unfold handleJoinRoom
    simp only [hget]

theorem claim_C2_no_empty_room_witness :
    (Room.mk ["a"] "a" "t0").users ≠ [] ∧
    (mapGet (handleLeaveRoom (runState [InEvent.createRoom "a" (some "alice") "R" "t0"])
        "a" "R").1.rooms "R" = none ∧
     mapGet (handleDisconnect (runState [InEvent.createRoom "a" (some "alice") "R" "t0"])
        "a").1.rooms "R" = none) ∧
    handleJoinRoom (⟨[], [], []⟩ : ServerState) "b" "R" (some "bob") =
      (⟨[], [], []⟩,
       [(Target.selfConn "b", OutEvent.errorMessage "Room not found")]) := by
  refine ⟨?_, ?_, ?_⟩
  · exact claim_C2_no_empty_room.1 [InEvent.createRoom "a" (some "alice") "R" "t0"]
      "R" ⟨["a"], "a", "t0"⟩ (by decide)
  · exact claim_C2_no_empty_room.2.1 [InEvent.createRoom "a" (some "alice") "R" "t0"]
      "a" "R" ⟨["a"], "a", "t0"⟩ (by decide) (by decide)
  · exact claim_C2_no_empty_room.2.2 ⟨[], [], []⟩ "b" "R" (some "bob") (by decide)

/-- C3: a `join-room` whose room id is not in the store emits exactly one
`error` event, delivered to the requesting connection and to nobody
else, and leaves the whole state — room store, name registry and groups —
unchanged. -/
theorem claim_C3_room_not_found (s : ServerState) (sid : ConnId) (rid : RoomId)
    (userName : Option String) (hget : mapGet s.rooms rid = none) :
    handleJoinRoom s sid rid userName =
      (s, [(Target.selfConn sid, OutEvent.errorMessage "Room not found")]) ∧
    deliveredTo s (handleJoinRoom s sid rid userName).2 sid =
      [OutEvent.errorMessage "Room not found"] ∧
    (∀ c : ConnId, c ≠ sid →
      deliveredTo s (handleJoinRoom s sid rid userName).2 c = []) := by
  have hmain : handleJoinRoom s sid rid userName =
      (s, [(Target.selfConn sid, OutEvent.errorMessage "Room not found")]) := by
    unfold handleJoinRoom
    simp only [hget]
  refine ⟨hmain, ?_, ?_⟩
  · rw [hmain]
    simp [deliveredTo, receivers]
  · intro c hc
    rw [hmain]
    simp [deliveredTo, receivers, hc]

theorem claim_C3_room_not_found_witness :
    handleJoinRoom (⟨[], [("a", "alice")], []⟩ : ServerState) "a" "Z" (some "alice") =
      (⟨[], [("a", "alice")], []⟩,
       [(Target.selfConn "a", OutEvent.errorMessage "Room not found")]) ∧
    deliveredTo (⟨[], [("a", "alice")], []⟩ : ServerState)
        (handleJoinRoom (⟨[], [("a", "alice")], []⟩ : ServerState) "a" "Z" (some "alice")).2 "b" = [] := by
  have h := claim_C3_room_not_found ⟨[], [("a", "alice")], []⟩ "a" "Z" (some "alice") (by decide)
  exact ⟨h.1, h.2.2 "b" (by decide)⟩

/-- C4: the ordering requirement — `room-joined` to the requester
strictly before the `user-joined` broadcast — holds for the canonical
`server.js` handler but is violated by the `src/unnamed/part_000`
prototype variant, which emits `user-joined` to the other members first.
Evaluated at a concrete successful join (room `R` with sole member `a`,
requester `b`). -/
theorem claim_C4_join_ordering :
    (joinRoomVariant
        ⟨[("R", ⟨["a"], "a", "t0"⟩)], [("a", "alice"), ("b", "bob")], [("R", "a")]⟩
        "b" "R" "bob").2 =
      [(Target.toRoom "R" "b", OutEvent.userJoined "b" (some "bob")),
       (Target.selfConn "b",
        OutEvent.roomJoined "R" [("a", some "alice"), ("b", some "bob")] (some "bob") false)] ∧
    (handleJoinRoom
        ⟨[("R", ⟨["a"], "a", "t0"⟩)], [("a", "alice"), ("b", "bob")], [("R", "a")]⟩
        "b" "R" (some "bob")).2 =
      [(Target.selfConn "b",
        OutEvent.roomJoined "R" [("a", some "alice"), ("b", some "bob")] (some "bob") false),
       (Target.toRoom "R" "b", OutEvent.userJoined "b" (some "bob"))] := by
  constructor
  · decide
  · decide

/-- C5 counterexample: a `join-room` by a connection that is already the
sole member of the room is NOT a no-op on the member list — `server.js`
pushes the id unconditionally, so the list becomes `["a", "a"]`. -/
theorem claim_C5_rejoin_counterexample :
    (handleJoinRoom ⟨[("R", ⟨["a"], "a", "t0"⟩)], [("a", "alice")], [("R", "a")]⟩
        "a" "R" (some "alice")).1.rooms = [("R", ⟨["a", "a"], "a", "t0"⟩)] ∧
    (handleJoinRoom ⟨[("R", ⟨["a"], "a", "t0"⟩)], [("a", "alice")], [("R", "a")]⟩
        "a" "R" (some "alice")).1.rooms ≠
      (⟨[("R", ⟨["a"], "a", "t0"⟩)], [("a", "alice")], [("R", "a")]⟩ : ServerState).rooms := by
  constructor
  · decide
  · decide

/-- C5 amended: a `join-room` by a connection already in the (non-full)
room's member list appends the id again — the member list grows by one
copy of `sid` and can therefore hold duplicates — and the handler still
sends the requester the `room-joined` snapshot (followed by the
`user-joined` broadcast). -/
theorem claim_C5_rejoin_appends (s : ServerState) (sid : ConnId) (rid : RoomId)
    (userName : Option String) (room : Room)
    (hget : mapGet s.rooms rid = some room) (hlen : room.users.length < 10)
    (hmem : sid ∈ room.users) :
    mapGet (handleJoinRoom s sid rid userName).1.rooms rid =
      some { room with users := room.users ++ [sid] } ∧
    (handleJoinRoom s sid rid userName).2 =
      [(Target.selfConn sid,
        OutEvent.roomJoined rid
          ((room.users ++ [sid]).map (fun u =>
            (u, mapGet (mapSet s.userNames sid (resolveName userName)) u)))
          (some (resolveName userName)) (decide (room.creator = sid))),
       (Target.toRoom rid sid,
        OutEvent.userJoined sid (some (resolveName userName)))] := by
  have hnotfull : ¬ 10 ≤ room.users.length := Nat.not_le.2 hlen
  unfold handleJoinRoom
  simp only [hget, if_neg hnotfull]
  constructor
  · exact mapGet_mapSet_self s.rooms rid _
  · rw [mapGet_mapSet_self s.userNames sid (resolveName userName)]

theorem claim_C5_rejoin_appends_witness :
    mapGet (handleJoinRoom ⟨[("R", ⟨["a"], "a", "t0"⟩)], [("a", "alice")], [("R", "a")]⟩
        "a" "R" (some "alice")).1.rooms "R" = some ⟨["a", "a"], "a", "t0"⟩ := by
  have h := claim_C5_rejoin_appends
    ⟨[("R", ⟨["a"], "a", "t0"⟩)], [("a", "alice")], [("R", "a")]⟩
    "a" "R" (some "alice") ⟨["a"], "a", "t0"⟩ (by decide) (by decide) (by decide)
  exact h.1

/-- C6: disconnect cleanup is idempotent — after one run of the
`disconnect` handler a second run changes nothing and emits no
`user-left` (nor any other) event — and when the connection was never in
any room (so it is in no member list, has no registry entry and belongs
to no broadcast group) a single run already changes nothing and emits
nothing. -/
theorem claim_C6_disconnect_idempotent (s : ServerState) (sid : ConnId)
    (hN : (s.userNames.map Prod.fst).Nodup) :
    handleDisconnect (handleDisconnect s sid).1 sid = ((handleDisconnect s sid).1, []) ∧
    ((∀ p ∈ s.rooms, sid ∉ p.2.users) → mapGet s.userNames sid = none →
      (∀ p ∈ s.groups, p.2 ≠ sid) → handleDisconnect s sid = (s, [])) := by
  constructor
  · have h1 : mapGet (mapDelete s.userNames sid) sid = none := mapGet_mapDelete_self hN
    have h2 : disconnectRooms sid none
        (disconnectRooms sid (mapGet s.userNames sid) s.rooms).1 =
        ((disconnectRooms sid (mapGet s.userNames sid) s.rooms).1, []) :=
      disconnectRooms_no_sid (disconnectRooms_result_no_sid _ _ _)
    have h3 : mapDelete (mapDelete s.userNames sid) sid = mapDelete s.userNames sid :=
      mapGet_none_mapDelete h1
    have h4 : (s.groups.filter (fun p => decide (p.2 ≠ sid))).filter
        (fun p => decide (p.2 ≠ sid)) = s.groups.filter (fun p => decide (p.2 ≠ sid)) := by
      rw [List.filter_eq_self]
      intro a ha
      exact (List.mem_filter.1 ha).2
    unfold handleDisconnect
    simp only [h1, h2, h3, h4]
  · intro hrooms hname hgroups
    have h2 : disconnectRooms sid (mapGet s.userNames sid) s.rooms = (s.rooms, []) :=
      disconnectRooms_no_sid hrooms
    have h3 : mapDelete s.userNames sid = s.userNames := mapGet_none_mapDelete hname
    have h4 : s.groups.filter (fun p => decide (p.2 ≠ sid)) = s.groups := by
      rw [List.filter_eq_self]
      intro a ha
      simpa using hgroups a ha
    unfold handleDisconnect
    simp only [h2, h3, h4]

theorem claim_C6_disconnect_idempotent_witness :
    handleDisconnect
        (handleDisconnect ⟨[("R", ⟨["a"], "a", "t0"⟩)], [("a", "alice")], [("R", "a")]⟩ "a").1
        "a" =
      ((handleDisconnect ⟨[("R", ⟨["a"], "a", "t0"⟩)], [("a", "alice")], [("R", "a")]⟩ "a").1,
       []) ∧
    handleDisconnect ⟨[("R", ⟨["a"], "a", "t0"⟩)], [("a", "alice")], [("R", "a")]⟩ "b" =
      (⟨[("R", ⟨["a"], "a", "t0"⟩)], [("a", "alice")], [("R", "a")]⟩, []) := by
  constructor
  · exact (claim_C6_disconnect_idempotent
      ⟨[("R", ⟨["a"], "a", "t0"⟩)], [("a", "alice")], [("R", "a")]⟩ "a" (by decide)).1
  · exact (claim_C6_disconnect_idempotent
      ⟨[("R", ⟨["a"], "a", "t0"⟩)], [("a", "alice")], [("R", "a")]⟩ "b" (by decide)).2
      (by decide) (by decide) (by decide)

/-- Every digit character printed by `toString(36)`, once upper-cased, is
an uppercase letter or a decimal digit. -/
theorem base36Char_upper_alnum : ∀ d : Fin 36,
    ('A' ≤ jsToUpper (base36Char d) ∧ jsToUpper (base36Char d) ≤ 'Z') ∨
    ('0' ≤ jsToUpper (base36Char d) ∧ jsToUpper (base36Char d) ≤ '9') := by
  decide

/-- C7: in any reachable state, an `audio` event from a member `a` of
room `rid` delivers exactly one `audio` event — attributed to `a` by id
and by the registry's name for `a` — to each other member `b` of the
room, none to `a` itself, and leaves the state (room store and name
registry included) unchanged. -/
theorem claim_C7_audio_relay (evs : List InEvent) (rid : RoomId) (room : Room)
    (a b : ConnId) (payload : Nat)
    (hget : mapGet (runState evs).rooms rid = some room)
    (ha : a ∈ room.users) (hb : b ∈ room.users) (hne : b ≠ a) :
    deliveredTo (runState evs) (handleAudio (runState evs) a rid payload).2 b =
      [OutEvent.audio a (mapGet (runState evs).userNames a) payload] ∧
    deliveredTo (runState evs) (handleAudio (runState evs) a rid payload).2 a = [] ∧
    (handleAudio (runState evs) a rid payload).1 = runState evs := by
  have hI := invariant_runState evs
  have hbg : (rid, b) ∈ (runState evs).groups :=
    hI.2.2.1 (rid, room) (mapGet_mem hget) b hb
  refine ⟨?_, ?_, rfl⟩
  · have hbrec : b ∈ receivers (runState evs) (Target.toRoom rid a) := by
      simp only [receivers]
      exact List.mem_filter.2 ⟨mem_groupMembers hbg, by simpa using hne⟩
    simp [handleAudio, deliveredTo, hbrec]
  · have harec : a ∉ receivers (runState evs) (Target.toRoom rid a) := by
      simp only [receivers]
      intro hmem
      have := (List.mem_filter.1 hmem).2
      simp at this
    simp [handleAudio, deliveredTo, harec]

theorem claim_C7_audio_relay_witness :
    deliveredTo (runState [InEvent.createRoom "a" (some "alice") "R" "t0",
        InEvent.joinRoom "b" "R" (some "bob")])
      (handleAudio (runState [InEvent.createRoom "a" (some "alice") "R" "t0",
        InEvent.joinRoom "b" "R" (some "bob")]) "a" "R" 7).2 "b" =
      [OutEvent.audio "a" (some "alice") 7] ∧
    deliveredTo (runState [InEvent.createRoom "a" (some "alice") "R" "t0",
        InEvent.joinRoom "b" "R" (some "bob")])
      (handleAudio (runState [InEvent.createRoom "a" (some "alice") "R" "t0",
        InEvent.joinRoom "b" "R" (some "bob")]) "a" "R" 7).2 "a" = [] := by
  have h := claim_C7_audio_relay
    [InEvent.createRoom "a" (some "alice") "R" "t0", InEvent.joinRoom "b" "R" (some "bob")]
    "R" ⟨["a", "b"], "a", "t0"⟩ "a" "b" 7 (by decide) (by decide) (by decide) (by decide)
  exact ⟨h.1, h.2.1⟩

/-- C8 counterexample: for the achievable random value `0.5`
(`(0.5).toString(36) = "0.i"`, digit list `[18]`) the generated token is
`"I"`, which has length 1, not 6. -/
theorem claim_C8_roomid_counterexample :
    generateRoomId [(18 : Fin 36)] = ['I'] ∧
    (generateRoomId [(18 : Fin 36)]).length ≠ 6 := by
  constructor
  · decide
  · decide

/-- C8 amended: for every value of the random source the token consists
only of uppercase alphanumeric characters (A–Z, 0–9) and has length at
MOST 6; it has length exactly 6 whenever the printed base-36 expansion
of the random value has at least 6 fractional digits (the typical case,
but not all cases — see the counterexample). -/
theorem claim_C8_roomid_shape (digits : List (Fin 36)) :
    (generateRoomId digits).length ≤ 6 ∧
    (∀ c ∈ generateRoomId digits,
      ('A' ≤ c ∧ c ≤ 'Z') ∨ ('0' ≤ c ∧ c ≤ '9')) ∧
    (6 ≤ digits.length → (generateRoomId digits).length = 6) := by
  by_cases hnil : digits = []
  · subst hnil
    refine ⟨by decide, by decide, by intro h; simp at h⟩
  · have hform : generateRoomId digits =
        ((digits.map base36Char).take 6).map jsToUpper := by
      simp [generateRoomId, jsToString36, jsSubstring2to8, hnil]
    refine ⟨?_, ?_, ?_⟩
    · rw [hform]
      simp only [List.length_map, List.length_take]
      exact min_le_left _ _
    · intro c hc
      rw [hform] at hc
      obtain ⟨x, hx, hxc⟩ := List.mem_map.1 hc
      have hx2 : x ∈ digits.map base36Char := List.mem_of_mem_take hx
      obtain ⟨d, _, hdx⟩ := List.mem_map.1 hx2
      rw [← hxc, ← hdx]
      exact base36Char_upper_alnum d
    · intro hlen
      rw [hform]
      simp only [List.length_map, List.length_take]
      omega

theorem claim_C8_roomid_shape_witness :
    (generateRoomId [0, 1, 2, 3, 4, 35]).length ≤ 6 ∧
    (6 ≤ ([0, 1, 2, 3, 4, 35] : List (Fin 36)).length →
      (generateRoomId [0, 1, 2, 3, 4, 35]).length = 6) := by
  have h := claim_C8_roomid_shape [0, 1, 2, 3, 4, 35]
  exact ⟨h.1, h.2.2⟩

/-- C9: in any reachable state, a `leave-room` for an existing room by a
connection that is NOT in its member list still emits the `user-left`
event (with `userId` the leaver's id) to the room's broadcast group,
while the room's member list is unchanged — the notification is not
guarded by a membership check. -/
theorem claim_C9_spurious_user_left (evs : List InEvent) (sid : ConnId) (rid : RoomId)
    (room : Room) (hget : mapGet (runState evs).rooms rid = some room)
    (hmem : sid ∉ room.users) :
    (handleLeaveRoom (runState evs) sid rid).2 =
      [(Target.toRoom rid sid, OutEvent.userLeft sid (mapGet (runState evs).userNames sid))] ∧
    mapGet (handleLeaveRoom (runState evs) sid rid).1.rooms rid = some room := by
  have hne : room.users ≠ [] := (invariant_runState evs).2.1 (rid, room) (mapGet_mem hget)
  have hfil : room.users.filter (fun id => decide (id ≠ sid)) = room.users := by
    rw [List.filter_eq_self]
    intro a ha
    have : a ≠ sid := fun hc => hmem (hc ▸ ha)
    simpa using this
  have hlen : ¬ (room.users.filter (fun id => decide (id ≠ sid))).length = 0 := by
    rw [hfil]
    simpa using hne
  unfold handleLeaveRoom
  simp only [hget, if_neg hlen]
  refine ⟨by trivial, ?_⟩
  rw [hfil]
  exact mapGet_mapSet_self (runState evs).rooms rid room

theorem claim_C9_spurious_user_left_witness :
    (handleLeaveRoom (runState [InEvent.createRoom "a" (some "alice") "R" "t0",
        InEvent.joinRoom "b" "Z" (some "bob")]) "b" "R").2 =
      [(Target.toRoom "R" "b", OutEvent.userLeft "b" none)] ∧
    mapGet (handleLeaveRoom (runState [InEvent.createRoom "a" (some "alice") "R" "t0",
        InEvent.joinRoom "b" "Z" (some "bob")]) "b" "R").1.rooms "R" =
      some ⟨["a"], "a", "t0"⟩ := by
  have h := claim_C9_spurious_user_left
    [InEvent.createRoom "a" (some "alice") "R" "t0", InEvent.joinRoom "b" "Z" (some "bob")]
    "b" "R" ⟨["a"], "a", "t0"⟩ (by decide) (by decide)
  exact ⟨h.1, h.2⟩

/-- C10: after any `leave-room` the name registry has no entry for the
leaver — the entry is deleted unconditionally: even when the room id
names no live room (then the room store is untouched and nothing is
emitted), rooms other than the named one are never touched (so the
connection may well still be a member of them), and a subsequent `audio`
relay from the connection carries an absent `fromName`. -/
theorem claim_C10_leave_deletes_name (s : ServerState) (sid : ConnId) (rid : RoomId)
    (hN : (s.userNames.map Prod.fst).Nodup) :
    mapGet (handleLeaveRoom s sid rid).1.userNames sid = none ∧
    (mapGet s.rooms rid = none →
      (handleLeaveRoom s sid rid).1.rooms = s.rooms ∧ (handleLeaveRoom s sid rid).2 = []) ∧
    (∀ rid2 : RoomId, rid2 ≠ rid →
      mapGet (handleLeaveRoom s sid rid).1.rooms rid2 = mapGet s.rooms rid2) ∧
    (∀ (rid3 : RoomId) (payload : Nat),
      (handleAudio (handleLeaveRoom s sid rid).1 sid rid3 payload).2 =
        [(Target.toRoom rid3 sid, OutEvent.audio sid none payload)]) := by
  have hnames : (handleLeaveRoom s sid rid).1.userNames = mapDelete s.userNames sid := by
    unfold handleLeaveRoom
    cases mapGet s.rooms rid with
    | none => rfl
    | some room => simp only []
  have hnone : mapGet (handleLeaveRoom s sid rid).1.userNames sid = none := by
    rw [hnames]
    exact mapGet_mapDelete_self hN
  refine ⟨hnone, ?_, ?_, ?_⟩
  · intro hget
    unfold handleLeaveRoom
    simp only [hget]
    exact ⟨by trivial, by trivial⟩
  · intro rid2 hne
    unfold handleLeaveRoom
    cases hget : mapGet s.rooms rid with
    | none => rfl
    | some room =>
      simp only []
      by_cases hlen : (room.users.filter (fun id => decide (id ≠ sid))).length = 0
      · rw [if_pos hlen]
        exact mapGet_mapDelete_ne s.rooms (fun hc => hne hc.symm)
      · rw [if_neg hlen]
        exact mapGet_mapSet_ne s.rooms _ (fun hc => hne hc.symm)
  · intro rid3 payload
    unfold handleAudio
    rw [hnone]

theorem claim_C10_leave_deletes_name_witness :
    mapGet (handleLeaveRoom ⟨[("Q", ⟨["x"], "x", "t0"⟩)], [("c", "carol")], []⟩
        "c" "R").1.userNames "c" = none ∧
    (handleLeaveRoom ⟨[("Q", ⟨["x"], "x", "t0"⟩)], [("c", "carol")], []⟩ "c" "R").1.rooms =
      [("Q", ⟨["x"], "x", "t0"⟩)] ∧
    mapGet (handleLeaveRoom ⟨[("Q", ⟨["x"], "x", "t0"⟩)], [("c", "carol")], []⟩
        "c" "R").1.rooms "Q" = some ⟨["x"], "x", "t0"⟩ ∧
    (handleAudio (handleLeaveRoom ⟨[("Q", ⟨["x"], "x", "t0"⟩)], [("c", "carol")], []⟩
        "c" "R").1 "c" "Q" 3).2 =
      [(Target.toRoom "Q" "c", OutEvent.audio "c" none 3)] := by
  have h := claim_C10_leave_deletes_name
    ⟨[("Q", ⟨["x"], "x", "t0"⟩)], [("c", "carol")], []⟩ "c" "R" (by decide)
  exact ⟨h.1, (h.2.1 (by decide)).1, h.2.2.1 "Q" (by decide), h.2.2.2 "Q" 3⟩
